import Mathlib

/-!
# tjsonb: a timestamp paired with a jsonb document

A shallow embedding of `src/tjsonb.c` and the properties its specification
states about it.

* Text is a list of characters, one for each `char` of a C string. A C string
  is a buffer of characters that holds a NUL terminator; the text of the string
  is what stands before the first NUL.
* `TimestampTz` is the host's 64-bit microsecond count, an `Int` here: the code
  only compares timestamps.
* The host functions the code calls (`timestamptz_in`, `jsonb_in`,
  `timestamptz_out`, `JsonbToCString`, `numeric_float8` and the float8
  arithmetic) are parameters of the functions that call them.
* The jsonb iterator, `numeric_cmp` and `JsonbExtractScalar` belong to the host
  as well; they are modelled below, each under a comment that says so.
-/

namespace TJsonbSpec

/-! ## Data model -/

/-- The host's `Numeric` as held in a jsonb document: the decimal number
`digits / 10 ^ dscale`. Two representations can denote one value
(`⟨10, 1⟩` and `⟨1, 0⟩` are both the number one). -/
structure Numeric where
  digits : Int
  dscale : Nat
  deriving DecidableEq, Repr

/-- A decoded jsonb document (the tree behind `Jsonb *`). Strings and keys are
character sequences with an explicit length, so they may hold any character. -/
inductive Jsonb where
  | null : Jsonb
  | bool (b : Bool) : Jsonb
  | numeric (n : Numeric) : Jsonb
  | string (s : List Char) : Jsonb
  | array (elems : List Jsonb) : Jsonb
  | object (pairs : List (List Char × Jsonb)) : Jsonb
  deriving Repr

/-- The host's `JsonbValue` as far as the code reads it: the type tag and the
payload of the scalar kinds. For `jbvArray` and `jbvObject` the iterator fills
in the element count only. -/
inductive JsonbValue where
  | jbvNull : JsonbValue
  | jbvString (val : List Char) : JsonbValue
  | jbvNumeric (numeric : Numeric) : JsonbValue
  | jbvBool (boolean : Bool) : JsonbValue
  | jbvArray (nElems : Nat) (rawScalar : Bool) : JsonbValue
  | jbvObject (nPairs : Nat) : JsonbValue
  | jbvBinary : JsonbValue
  deriving DecidableEq, Repr

/-- The `enum jbvType` tag of a `JsonbValue` (`v->type`). -/
inductive jbvType where
  | jbvNull | jbvString | jbvNumeric | jbvBool | jbvArray | jbvObject | jbvBinary
  deriving DecidableEq, Repr

/-- The field `v->type`. -/
def JsonbValue.type : JsonbValue → jbvType
  | .jbvNull => .jbvNull
  | .jbvString _ => .jbvString
  | .jbvNumeric _ => .jbvNumeric
  | .jbvBool _ => .jbvBool
  | .jbvArray _ _ => .jbvArray
  | .jbvObject _ => .jbvObject
  | .jbvBinary => .jbvBinary

/-- The host's `JsonbIteratorToken`. -/
inductive JsonbIteratorToken where
  | WJB_DONE | WJB_KEY | WJB_VALUE | WJB_ELEM
  | WJB_BEGIN_ARRAY | WJB_END_ARRAY | WJB_BEGIN_OBJECT | WJB_END_OBJECT
  deriving DecidableEq, Repr

/-- The host's `TimestampTz`: microseconds since the epoch, in UTC. -/
abbrev TimestampTz := Int

/-- The struct `TJsonb` of the source. The codec never looks inside the
document, so the structure is generic in the document type `J`; every
operation that reads the document takes `TJsonb Jsonb`. -/
structure TJsonb (J : Type) where
  timestamp : TimestampTz
  jsondata : J
  deriving DecidableEq, Repr

/-! ## Host functions used by the comparator -/

/-- Modelled from the spec: the host's `numeric_cmp`, which is not under
`src/` ("Number compares by exact numeric value equality (not textual
representation)"). It returns -1, 0 or 1 as the first value is below, equal to
or above the second. -/
def numeric_cmp (a b : Numeric) : Int :=
  let x := a.digits * (10 : Int) ^ b.dscale
  let y := b.digits * (10 : Int) ^ a.dscale
  if x < y then -1 else if y < x then 1 else 0

/-- The number a `Numeric` denotes. -/
def Numeric.value (n : Numeric) : ℚ := (n.digits : ℚ) / (10 : ℚ) ^ n.dscale

/-- The C library's `strncmp(s1, s2, n)` on character buffers: compares at most
`n` characters and stops after a NUL; the end of a buffer reads as NUL. -/
def strncmp : List Char → List Char → Nat → Int
  | _, _, 0 => 0
  | [], [], _ + 1 => 0
  | [], b :: _, _ + 1 => if b = '\x00' then 0 else - (b.toNat : Int)
  | a :: _, [], _ + 1 => if a = '\x00' then 0 else (a.toNat : Int)
  | a :: s1, b :: s2, n + 1 =>
    if a ≠ b then (a.toNat : Int) - (b.toNat : Int)
    else if a = '\x00' then 0
    else strncmp s1 s2 n

/-- One pull of a jsonb iterator, as the caller sees it: the token returned and
the value stored through `val` (`none` when the pull leaves `*val` alone). -/
structure Pull where
  tok : JsonbIteratorToken
  val : Option JsonbValue
  deriving DecidableEq, Repr

mutual
/-- Modelled from the spec: the pulls that the host's `JsonbIteratorNext`
(with `skipNested = false`), which is not under `src/`, makes for a value
that stands as an array element (`tok = WJB_ELEM`) or as an object value
(`tok = WJB_VALUE`); the specification's section 4.1 calls both tokens
`Scalar`. A scalar is one pull that stores the scalar; a container is walked
in pre-order: its begin token (storing a `jbvArray` or `jbvObject` header),
its children in order, its end token (storing nothing, so that `*val` keeps
what the pull before left there). -/
def Jsonb.pulls (tok : JsonbIteratorToken) : Jsonb → List Pull
  | .null => [⟨tok, some .jbvNull⟩]
  | .bool b => [⟨tok, some (.jbvBool b)⟩]
  | .numeric n => [⟨tok, some (.jbvNumeric n)⟩]
  | .string s => [⟨tok, some (.jbvString s)⟩]
  | .array elems =>
    ⟨.WJB_BEGIN_ARRAY, some (.jbvArray elems.length false)⟩ ::
      (Jsonb.elemPulls elems ++ [⟨.WJB_END_ARRAY, none⟩])
  | .object pairs =>
    ⟨.WJB_BEGIN_OBJECT, some (.jbvObject pairs.length)⟩ ::
      (Jsonb.pairPulls pairs ++ [⟨.WJB_END_OBJECT, none⟩])
/-- The pulls for the elements of an array, in sequence order. -/
def Jsonb.elemPulls : List Jsonb → List Pull
  | [] => []
  | e :: es => Jsonb.pulls .WJB_ELEM e ++ Jsonb.elemPulls es
/-- The pulls for the pairs of an object, in stored order: the key (a
`jbvString`), then the value. -/
def Jsonb.pairPulls : List (List Char × Jsonb) → List Pull
  | [] => []
  | (k, v) :: ps =>
    ⟨.WJB_KEY, some (.jbvString k)⟩ :: (Jsonb.pulls .WJB_VALUE v ++ Jsonb.pairPulls ps)
end

/-- The host's `JsonbIterator` as the caller sees it: the pulls it has yet to
make. The empty list is the exhausted (`NULL`) iterator. -/
abbrev JsonbIterator := List Pull

/-- Modelled from the spec: the host's `JsonbIteratorInit` on the root
container of a document, which is not under `src/` (section 4.1: "a fresh
iterator instance is created per traversal"). The root of a stored document is
an array or an object; the host stores a document that is a bare scalar as a
one-element array flagged `rawScalar`. -/
def JsonbIteratorInit : Jsonb → JsonbIterator
  | .array elems => Jsonb.pulls .WJB_ELEM (.array elems)
  | .object pairs => Jsonb.pulls .WJB_ELEM (.object pairs)
  | scalar =>
    ⟨.WJB_BEGIN_ARRAY, some (.jbvArray 1 true)⟩ ::
      (Jsonb.pulls .WJB_ELEM scalar ++ [⟨.WJB_END_ARRAY, none⟩])

/-- Modelled from the spec: the host's `JsonbIteratorNext(&it, &val, false)`,
which is not under `src/`. It returns the token, the advanced iterator and the
new content of `*val`. An exhausted iterator returns `WJB_DONE` and sets the
value's type to `jbvNull`, again and again. -/
def JsonbIteratorNext (it : JsonbIterator) (val : JsonbValue) :
    JsonbIteratorToken × JsonbIterator × JsonbValue :=
  match it with
  | [] => (.WJB_DONE, [], .jbvNull)
  | p :: rest => (p.tok, rest, p.val.getD val)

/-! ## The comparator (`src/tjsonb.c`, lines 15-50) -/

/-- The source's `compare_jsonb_values`: false when the types differ; strings
by length and `strncmp`, numerics by `numeric_cmp`, booleans by value; false
for every other type. -/
def compare_jsonb_values (v1 v2 : JsonbValue) : Bool :=
  if v1.type ≠ v2.type then false
  else
    match v1, v2 with
    | .jbvString s1, .jbvString s2 =>
      s1.length == s2.length && strncmp s1 s2 s1.length == 0
    | .jbvNumeric n1, .jbvNumeric n2 => numeric_cmp n1 n2 == 0
    | .jbvBool b1, .jbvBool b2 => b1 == b2
    | _, _ => false

set_option linter.unusedVariables false in
/-- The loop of `jsonb_contains_container` (lines 42-49): pull from the
first iterator; stop with true on `WJB_DONE`; only then pull from the second;
stop with true on `WJB_DONE`; return false when the tokens differ or
`compare_jsonb_values` rejects the two values; otherwise go round again. -/
def jsonb_contains_loop (it1 it2 : JsonbIterator) (v1 v2 : JsonbValue) : Bool :=
  match h : JsonbIteratorNext it1 v1 with
  | (tok1, it1n, v1n) =>
    if h1 : tok1 = .WJB_DONE then true
    else
      match JsonbIteratorNext it2 v2 with
      | (tok2, it2n, v2n) =>
        if tok2 = .WJB_DONE then true
        else if tok1 ≠ tok2 || !compare_jsonb_values v1n v2n then false
        else jsonb_contains_loop it1n it2n v1n v2n
termination_by it1.length
decreasing_by
  cases it1 with
  | nil => simp [JsonbIteratorNext] at h; exact absurd h.1.symm h1
  | cons p rest =>
    simp only [JsonbIteratorNext, Prod.mk.injEq] at h
    rw [← h.2.1]; simp

/-- The source's `jsonb_contains_container`. The locals `v1`, `v2` are not
initialised in the source; the first pull of each iterator stores a value
before anything reads them, and the model starts them as `jbvNull`. -/
def jsonb_contains_container (container1 container2 : Jsonb) : Bool :=
  jsonb_contains_loop (JsonbIteratorInit container1) (JsonbIteratorInit container2)
    .jbvNull .jbvNull

/-- What a run of the loop of `jsonb_contains_container` did: the value the
function returns, how many times the loop body (line 44) ran, and how many
pulls each iterator served. -/
structure LoopTrace where
  result : Bool
  iterations : Nat
  pulls1 : Nat
  pulls2 : Nat
  deriving DecidableEq, Repr

set_option linter.unusedVariables false in
/-- The loop of `jsonb_contains_container` once more, step for step as
`jsonb_contains_loop`, with the counts of `LoopTrace` kept along the way. -/
def jsonb_contains_trace (it1 it2 : JsonbIterator) (v1 v2 : JsonbValue) : LoopTrace :=
  match h : JsonbIteratorNext it1 v1 with
  | (tok1, it1n, v1n) =>
    if h1 : tok1 = .WJB_DONE then ⟨true, 0, 1, 0⟩
    else
      match JsonbIteratorNext it2 v2 with
      | (tok2, it2n, v2n) =>
        if tok2 = .WJB_DONE then ⟨true, 0, 1, 1⟩
        else if tok1 ≠ tok2 || !compare_jsonb_values v1n v2n then ⟨false, 1, 1, 1⟩
        else
          match jsonb_contains_trace it1n it2n v1n v2n with
          | ⟨result, iterations, pulls1, pulls2⟩ =>
            ⟨result, iterations + 1, pulls1 + 1, pulls2 + 1⟩
termination_by it1.length
decreasing_by
  cases it1 with
  | nil => simp [JsonbIteratorNext] at h; exact absurd h.1.symm h1
  | cons p rest =>
    simp only [JsonbIteratorNext, Prod.mk.injEq] at h
    rw [← h.2.1]; simp

/-! ## The predicates on timestamped documents (lines 91-105, 141-155) -/

/-- The source's `tjsonb_overlaps`. -/
def tjsonb_overlaps (first second : TJsonb Jsonb) : Bool :=
  if first.timestamp == second.timestamp &&
      jsonb_contains_container first.jsondata second.jsondata then true
  else false

/-- The source's `tjsonb_range` (`stop` is the source's `end`); the result is
the text handed to `cstring_to_text`. -/
def tjsonb_range (start stop : TJsonb Jsonb) : String :=
  if decide (start.timestamp ≤ stop.timestamp) &&
      jsonb_contains_container start.jsondata stop.jsondata then
    "Overlap found within range"
  else "No overlap in specified range"

/-! ## The text codec (lines 52-89) -/

/-- The NUL character that ends a C string. -/
def NUL : Char := '\x00'

/-- The buffer of the C string whose text is `s`: the text and its terminator. -/
def cstring (s : List Char) : List Char := s ++ [NUL]

/-- The text of the C string that starts `off` characters into `buf`: all up to
the first NUL from there. -/
def readCString (buf : List Char) (off : Nat) : List Char :=
  (buf.drop off).takeWhile (fun c => c != NUL)

/-- The C library's `strchr(str, c)`: the offset of the first `c` in the C
string at the start of `str`, the terminator included in the search; `none`
is the null pointer. -/
def strchr : List Char → Char → Option Nat
  | [], _ => none
  | x :: rest, c =>
    if x = c then some 0
    else if x = NUL then none
    else (strchr rest c).map (fun i => i + 1)

/-- The part of a text before the first occurrence of `c`. -/
def beforeFirst (c : Char) (s : List Char) : List Char :=
  s.takeWhile (fun x => x != c)

/-- The part of a text after the first occurrence of `c`. -/
def afterFirst (c : Char) (s : List Char) : List Char :=
  (s.dropWhile (fun x => x != c)).drop 1

/-- The errors `tjsonb_in` ends with: its own `ereport`, and the errors the two
host parsers raise, which pass through it. -/
inductive TJsonbError where
  | FormatError (errmsg : String) : TJsonbError
  | TimestampParseError (errmsg : String) : TJsonbError
  | JsonSyntaxError (errmsg : String) : TJsonbError
  deriving DecidableEq, Repr

/-- A call that `tjsonb_in` makes to a host parser, with the text it passes. -/
inductive HostCall where
  | timestamptz_in (str : List Char) : HostCall
  | jsonb_in (str : List Char) : HostCall
  deriving DecidableEq, Repr

/-- What a run of `tjsonb_in` leaves behind: the value returned or the error
raised, the host parser calls made, in order, and the content of the caller's
buffer `str` afterwards. -/
structure InOutcome (J : Type) where
  result : Except TJsonbError (TJsonb J)
  calls : List HostCall
  str : List Char

/-- The source's `tjsonb_in` on the buffer `str`, given the host's
`timestamptz_in` and `jsonb_in` (an `Except.error` is the host raising an
error, which ends the function at once, as does `ereport(ERROR, ...)`). -/
def tjsonb_in {J : Type} (timestamptz_in : List Char → Except String TimestampTz)
    (jsonb_in : List Char → Except String J) (str : List Char) : InOutcome J :=
  match strchr str '|' with
  | none => ⟨.error (.FormatError "Invalid input format for tjsonb"), [], str⟩
  | some delimiter =>
    let str1 := str.set delimiter NUL
    let timestamp_str := readCString str1 0
    let json_str := readCString str1 (delimiter + 1)
    match timestamptz_in timestamp_str with
    | .error e => ⟨.error (.TimestampParseError e), [.timestamptz_in timestamp_str], str1⟩
    | .ok timestamp =>
      match jsonb_in json_str with
      | .error e =>
        ⟨.error (.JsonSyntaxError e),
          [.timestamptz_in timestamp_str, .jsonb_in json_str], str1⟩
      | .ok jsondata =>
        ⟨.ok ⟨timestamp, jsondata⟩,
          [.timestamptz_in timestamp_str, .jsonb_in json_str], str1⟩

/-- The host's `psprintf` for formats made of plain characters and `%s`
directives: each `%s` is replaced by the text of the next argument. -/
def psprintf : List Char → List (List Char) → List Char
  | [], _ => []
  | '%' :: 's' :: fmt, arg :: args => arg ++ psprintf fmt args
  | '%' :: 's' :: fmt, [] => psprintf fmt []
  | c :: fmt, args => c :: psprintf fmt args

/-- The source's `tjsonb_out`, given the host's `timestamptz_out` and
`JsonbToCString`; the result is the text of the string returned. -/
def tjsonb_out {J : Type} (timestamptz_out : TimestampTz → List Char)
    (JsonbToCString : J → List Char) (tjsonb : TJsonb J) : List Char :=
  let timestamp_str := timestamptz_out tjsonb.timestamp
  let json_str := JsonbToCString tjsonb.jsondata
  psprintf "%s|%s".toList [timestamp_str, json_str]

/-! ## The aggregate (lines 107-139) -/

/-- The host's float8 arithmetic as `tjsonb_aggregate_speed` uses it, on a
carrier `F`: the constant 0, addition, division, the conversion of an `int`
and the host's `numeric_float8`. -/
structure Float8Ops (F : Type) where
  zero : F
  add : F → F → F
  div : F → F → F
  ofInt : Int → F
  numeric_float8 : Numeric → F

/-- Modelled from the spec: the host's `JsonbExtractScalar`, which is not
under `src/`: true, with the scalar stored in `res`, when the root is a bare
scalar; false otherwise, with the type of the root container in `res`. -/
def JsonbExtractScalar : Jsonb → Bool × JsonbValue
  | .array elems => (false, .jbvArray elems.length false)
  | .object pairs => (false, .jbvObject pairs.length)
  | .null => (true, .jbvNull)
  | .bool b => (true, .jbvBool b)
  | .numeric n => (true, .jbvNumeric n)
  | .string s => (true, .jbvString s)

/-- The `for` loop of `tjsonb_aggregate_speed` (lines 118-132) from element `i`
on: `elements` holds the elements not yet visited, and the result is the final
`total_speed` and `count`. The key `"speed"` that the body builds is never
read, so it is left out. -/
def aggregate_loop {F : Type} (ops : Float8Ops F) :
    List (TJsonb Jsonb) → F → Int → F × Int
  | [], total_speed, count => (total_speed, count)
  | e :: elements, total_speed, count =>
    match JsonbExtractScalar e.jsondata with
    | (true, .jbvNumeric numeric) =>
      aggregate_loop ops elements (ops.add total_speed (ops.numeric_float8 numeric))
        (count + 1)
    | _ => aggregate_loop ops elements total_speed count

/-- The source's `tjsonb_aggregate_speed` on the elements of the input array;
`none` is the SQL NULL of `PG_RETURN_NULL()`. -/
def tjsonb_aggregate_speed {F : Type} (ops : Float8Ops F)
    (elements : List (TJsonb Jsonb)) : Option F :=
  match aggregate_loop ops elements ops.zero 0 with
  | (total_speed, count) =>
    if count = 0 then none else some (ops.div total_speed (ops.ofInt count))

/-- What a run of the `for` loop of `tjsonb_aggregate_speed` leaves: the final
`total_speed`, `count` and index `i`, and how many times the body ran. -/
structure ForOutcome (F : Type) where
  total_speed : F
  count : Int
  i : Nat
  visits : Nat

/-- The `for` loop of `tjsonb_aggregate_speed` (lines 118-132) with its index:
while `i < num_elements`, the body reads `elements[i]` and `i` goes up by one.
`visits` counts the runs of the body. -/
def aggregate_for {F : Type} (ops : Float8Ops F) (elements : List (TJsonb Jsonb))
    (i : Nat) (total_speed : F) (count : Int) (visits : Nat) : ForOutcome F :=
  if h : i < elements.length then
    match JsonbExtractScalar (elements.get ⟨i, h⟩).jsondata with
    | (true, .jbvNumeric numeric) =>
      aggregate_for ops elements (i + 1)
        (ops.add total_speed (ops.numeric_float8 numeric)) (count + 1) (visits + 1)
    | _ => aggregate_for ops elements (i + 1) total_speed count (visits + 1)
  else ⟨total_speed, count, i, visits⟩
termination_by elements.length - i

/-! ## Sample host functions

Small host functions on which the statements below are evaluated. -/

/-- A timestamp formatter: a sign and as many `i` as the absolute value. -/
def unaryOut (t : TimestampTz) : List Char :=
  if 0 ≤ t then '+' :: List.replicate t.toNat 'i'
  else '-' :: List.replicate (-t).toNat 'i'

/-- A timestamp parser that undoes `unaryOut`: a sign, then the count of the
characters that follow. -/
def unaryIn : List Char → Except String TimestampTz
  | '+' :: r => .ok (r.length : Int)
  | '-' :: r => .ok (-(r.length : Int))
  | _ => .error "invalid input syntax for type timestamp with time zone"

/-- A timestamp formatter whose output starts with a `|`. -/
def barOut (t : TimestampTz) : List Char := '|' :: unaryOut t

/-- A timestamp parser that undoes `barOut`, and reads `unaryOut` as well. -/
def barIn : List Char → Except String TimestampTz
  | '|' :: r => unaryIn r
  | r => unaryIn r

/-- A JSON parser for a document type with one value. -/
def unitIn (_ : List Char) : Except String Unit := .ok ()

/-- A JSON formatter for a document type with one value. -/
def unitOut (_ : Unit) : List Char := "null".toList

/-- Exact arithmetic on the rationals, standing for float8 where every
intermediate value is exactly representable. -/
def exactOps : Float8Ops ℚ where
  zero := 0
  add := fun x y => x + y
  div := fun x y => x / y
  ofInt := fun n => (n : ℚ)
  numeric_float8 := fun n => (n.digits : ℚ) / (10 : ℚ) ^ n.dscale

/-- The numbers that stand at the root of a document, in the order of the
documents. -/
def numberRoots : List (TJsonb Jsonb) → List Numeric
  | [] => []
  | d :: ds =>
    match d.jsondata with
    | .numeric n => n :: numberRoots ds
    | _ => numberRoots ds

/-- The document `{"speed": n}`. -/
def speedDoc (n : Numeric) : Jsonb := .object [("speed".toList, .numeric n)]

/-- The sum of the numbers as the loop forms it: from `zero`, adding the
conversion of each number in turn. -/
def float8Sum {F : Type} (ops : Float8Ops F) (ns : List Numeric) : F :=
  ns.foldl (fun acc n => ops.add acc (ops.numeric_float8 n)) ops.zero

/-! ## The comparator as the specification words it

These definitions follow the specification (its sections 3, 4.1, 4.2 and 4.3),
not the source; the theorems compare them with the source's functions. -/

namespace Spec

/-- The specification's `Token`. -/
inductive Token where
  | BeginArray : Token
  | EndArray : Token
  | BeginObject : Token
  | EndObject : Token
  | Key (k : List Char) : Token
  | Scalar (v : Jsonb) : Token

mutual
/-- The specification's `iterate`: the tokens of a tree in pre-order, without
the final `Done`. -/
def iterate : Jsonb → List Token
  | .array elems => .BeginArray :: (iterateElems elems ++ [.EndArray])
  | .object pairs => .BeginObject :: (iteratePairs pairs ++ [.EndObject])
  | .null => [.Scalar .null]
  | .bool b => [.Scalar (.bool b)]
  | .numeric n => [.Scalar (.numeric n)]
  | .string s => [.Scalar (.string s)]
/-- The sub-traversals of the elements of an array, in sequence order. -/
def iterateElems : List Jsonb → List Token
  | [] => []
  | e :: es => iterate e ++ iterateElems es
/-- For each pair of an object, `Key(k)` and the sub-traversal of the value. -/
def iteratePairs : List (List Char × Jsonb) → List Token
  | [] => []
  | (k, v) :: ps => .Key k :: (iterate v ++ iteratePairs ps)
end

/-- Two tokens have the same tag. -/
def Token.sameTag : Token → Token → Bool
  | .BeginArray, .BeginArray => true
  | .EndArray, .EndArray => true
  | .BeginObject, .BeginObject => true
  | .EndObject, .EndObject => true
  | .Key _, .Key _ => true
  | .Scalar _, .Scalar _ => true
  | _, _ => false

/-- The specification's `scalarsEqual`: strings by their character sequence,
numbers by numeric value, booleans by value, false for any other pairing. -/
def scalarsEqual : Jsonb → Jsonb → Bool
  | .string s1, .string s2 => s1 == s2
  | .numeric n1, .numeric n2 =>
    n1.digits * (10 : Int) ^ n2.dscale == n2.digits * (10 : Int) ^ n1.dscale
  | .bool b1, .bool b2 => b1 == b2
  | _, _ => false

/-- One compared step matches: the tags are the same and, when both tokens are
`Scalar`, `scalarsEqual` holds on the payloads. -/
def stepMatches : Token → Token → Bool
  | .Scalar v1, .Scalar v2 => scalarsEqual v1 v2
  | t1, t2 => t1.sameTag t2

/-- The specification's `structurallyMatches`: every position below the length
of the shorter token stream matches. -/
def structurallyMatches (a b : Jsonb) : Bool :=
  (List.zip (iterate a) (iterate b)).all (fun p => stepMatches p.1 p.2)

/-- The first position at which the walk of the specification stops with
false, if there is one before either stream ends. -/
def firstMismatch : List Token → List Token → Option Nat
  | t1 :: s1, t2 :: s2 =>
    if stepMatches t1 t2 then (firstMismatch s1 s2).map (fun i => i + 1) else some 0
  | _, _ => none

end Spec

/-! ## Lemmas on the comparator -/

/-- The first pull of a fresh iterator is a container begin: it stores a
`jbvArray` or a `jbvObject` header and its token is not `WJB_DONE`. -/
theorem JsonbIteratorInit_begin (d : Jsonb) :
    ∃ p rest x, JsonbIteratorInit d = p :: rest ∧ p.tok ≠ .WJB_DONE ∧ p.val = some x ∧
      (x.type = .jbvArray ∨ x.type = .jbvObject) := by
  cases d <;> simp [JsonbIteratorInit, Jsonb.pulls, JsonbValue.type]

/-- The source's `compare_jsonb_values` rejects every pair whose first value is
a container header (the `default` branch of its `switch`). -/
theorem compare_jsonb_values_header (v1 v2 : JsonbValue)
    (h : v1.type = .jbvArray ∨ v1.type = .jbvObject) :
    compare_jsonb_values v1 v2 = false := by
  cases v1 <;> cases v2 <;> simp_all [compare_jsonb_values, JsonbValue.type]

/-- An iteration of the loop that compares a container header returns false. -/
theorem jsonb_contains_loop_header (p1 p2 : Pull) (r1 r2 : JsonbIterator)
    (v1 v2 x : JsonbValue) (h1 : p1.tok ≠ .WJB_DONE) (h2 : p2.tok ≠ .WJB_DONE)
    (hx : p1.val = some x) (ht : x.type = .jbvArray ∨ x.type = .jbvObject) :
    jsonb_contains_loop (p1 :: r1) (p2 :: r2) v1 v2 = false := by
  rw [jsonb_contains_loop]
  simp [JsonbIteratorNext, h1, h2, hx, compare_jsonb_values_header x _ ht]

/-- The source's `jsonb_contains_container` returns false on every pair of
documents: the first iteration compares two container headers. -/
theorem jsonb_contains_container_eq_false (a b : Jsonb) :
    jsonb_contains_container a b = false := by
  obtain ⟨p1, r1, x, ha, h1, hx, ht⟩ := JsonbIteratorInit_begin a
  obtain ⟨p2, r2, y, hb, h2, _, _⟩ := JsonbIteratorInit_begin b
  rw [jsonb_contains_container, ha, hb]
  exact jsonb_contains_loop_header p1 p2 r1 r2 _ _ x h1 h2 hx ht

/-! ## Lemmas on C strings -/

theorem not_mem_beforeFirst (c : Char) (s : List Char) : c ∉ beforeFirst c s := by
  induction s with
  | nil => simp [beforeFirst]
  | cons x xs ih =>
    by_cases hx : x = c
    · simp [beforeFirst, hx]
    · have hne : (x != c) = true := by simpa using hx
      have hcx : ¬ c = x := fun h => hx h.symm
      simpa [beforeFirst, List.takeWhile_cons, hne, hcx] using ih

theorem beforeFirst_append_afterFirst (c : Char) (s : List Char) (h : c ∈ s) :
    beforeFirst c s ++ c :: afterFirst c s = s := by
  induction s with
  | nil => simp at h
  | cons x xs ih =>
    by_cases hx : x = c
    · simp [beforeFirst, afterFirst, hx]
    · have hne : (x != c) = true := by simpa using hx
      have hmem : c ∈ xs := by
        rcases List.mem_cons.mp h with h1 | h1
        · exact absurd h1.symm hx
        · exact h1
      simpa [beforeFirst, afterFirst, List.takeWhile_cons, List.dropWhile_cons, hne]
        using ih hmem

theorem beforeFirst_eq_self (c : Char) (s : List Char) (h : c ∉ s) :
    beforeFirst c s = s := by
  induction s with
  | nil => simp [beforeFirst]
  | cons x xs ih =>
    have hx : ¬ x = c := fun e => h (by simp [e])
    have hne : (x != c) = true := by simpa using hx
    have hxs : c ∉ xs := fun e => h (List.mem_cons_of_mem _ e)
    have := ih hxs
    simp only [beforeFirst] at this ⊢
    simp [List.takeWhile_cons, hne, this]

theorem beforeFirst_append_cons (c : Char) (pre post : List Char) (h : c ∉ pre) :
    beforeFirst c (pre ++ c :: post) = pre := by
  induction pre with
  | nil => simp [beforeFirst]
  | cons x xs ih =>
    have hx : ¬ x = c := fun e => h (by simp [e])
    have hne : (x != c) = true := by simpa using hx
    have hxs : c ∉ xs := fun e => h (List.mem_cons_of_mem _ e)
    have := ih hxs
    simp only [beforeFirst] at this ⊢
    simp [List.takeWhile_cons, hne, this]

theorem afterFirst_append_cons (c : Char) (pre post : List Char) (h : c ∉ pre) :
    afterFirst c (pre ++ c :: post) = post := by
  induction pre with
  | nil => simp [afterFirst]
  | cons x xs ih =>
    have hx : ¬ x = c := fun e => h (by simp [e])
    have hne : (x != c) = true := by simpa using hx
    have hxs : c ∉ xs := fun e => h (List.mem_cons_of_mem _ e)
    have := ih hxs
    simp only [afterFirst] at this ⊢
    simp [List.dropWhile_cons, hne, this]

/-- The call `strchr` finds the first `c` of a text when no NUL stands before it. -/
theorem strchr_append_cons (c : Char) (pre rest : List Char) (hc : c ∉ pre)
    (hn : NUL ∉ pre) : strchr (pre ++ c :: rest) c = some pre.length := by
  induction pre with
  | nil => simp [strchr]
  | cons x xs ih =>
    have hx : ¬ x = c := fun e => hc (by simp [e])
    have hxn : ¬ x = NUL := fun e => hn (by simp [e])
    have hxs : c ∉ xs := fun e => hc (List.mem_cons_of_mem _ e)
    have hns : NUL ∉ xs := fun e => hn (List.mem_cons_of_mem _ e)
    simp [strchr, hx, hxn, ih hxs hns]

/-- The call `strchr` returns the null pointer on a C string without `c`. -/
theorem strchr_cstring_none (c : Char) (s : List Char) (hc : c ∉ s) (hcn : c ≠ NUL) :
    strchr (cstring s) c = none := by
  induction s with
  | nil =>
    have : ¬ NUL = c := fun e => hcn e.symm
    simp [cstring, strchr, this]
  | cons x xs ih =>
    have hx : ¬ x = c := fun e => hc (by simp [e])
    have hxs : c ∉ xs := fun e => hc (List.mem_cons_of_mem _ e)
    have := ih hxs
    simp only [cstring] at this
    have hnc : ¬ NUL = c := fun e => hcn e.symm
    by_cases hxn : x = NUL
    · simp [cstring, strchr, hxn, hnc]
    · simp [cstring, strchr, hx, hxn, this]

theorem set_append_cons (pre rest : List Char) (c x : Char) :
    (pre ++ c :: rest).set pre.length x = pre ++ x :: rest := by
  induction pre with
  | nil => simp
  | cons y ys ih => simp [ih]

theorem readCString_zero (pre rest : List Char) (hn : NUL ∉ pre) :
    readCString (pre ++ NUL :: rest) 0 = pre := by
  have := beforeFirst_append_cons NUL pre rest hn
  simpa [readCString, beforeFirst] using this

theorem readCString_after (pre post : List Char) (x : Char) (hn : NUL ∉ post) :
    readCString (pre ++ x :: (post ++ [NUL])) (pre.length + 1) = post := by
  have h1 : (pre ++ x :: (post ++ [NUL])).drop (pre.length + 1) = post ++ [NUL] := by
    induction pre with
    | nil => simp
    | cons y ys ih => simp [ih]
  have := beforeFirst_append_cons NUL post [] hn
  simp only [readCString, h1]
  simpa [beforeFirst] using this

/-- What `tjsonb_in` does on the C string of a text with a `|`: the buffer is
cut at the first `|`, the timestamp parser gets the part before it and, when
that succeeds, the JSON parser gets the part after it. -/
theorem tjsonb_in_split {J : Type} (timestamptz_in : List Char → Except String TimestampTz)
    (jsonb_in : List Char → Except String J) (pre post : List Char)
    (hbar : '|' ∉ pre) (hpre : NUL ∉ pre) (hpost : NUL ∉ post) :
    tjsonb_in timestamptz_in jsonb_in (cstring (pre ++ '|' :: post)) =
      match timestamptz_in pre with
      | .error e =>
        ⟨.error (.TimestampParseError e), [.timestamptz_in pre],
          pre ++ NUL :: (post ++ [NUL])⟩
      | .ok timestamp =>
        match jsonb_in post with
        | .error e =>
          ⟨.error (.JsonSyntaxError e), [.timestamptz_in pre, .jsonb_in post],
            pre ++ NUL :: (post ++ [NUL])⟩
        | .ok jsondata =>
          ⟨.ok ⟨timestamp, jsondata⟩, [.timestamptz_in pre, .jsonb_in post],
            pre ++ NUL :: (post ++ [NUL])⟩ := by
  have hs : cstring (pre ++ '|' :: post) = pre ++ '|' :: (post ++ [NUL]) := by
    simp [cstring]
  have h1 := strchr_append_cons '|' pre (post ++ [NUL]) hbar hpre
  have h2 := set_append_cons pre (post ++ [NUL]) '|' NUL
  have h3 := readCString_zero pre (post ++ [NUL]) hpre
  have h4 := readCString_after pre post NUL hpost
  simp only [tjsonb_in, hs, h1, h2, h3, h4]

/-- The same on any text that holds a `|` and no NUL, the parts being what
stands before and after the first `|`. -/
theorem tjsonb_in_delimiter {J : Type}
    (timestamptz_in : List Char → Except String TimestampTz)
    (jsonb_in : List Char → Except String J) (s : List Char)
    (hnul : NUL ∉ s) (hmem : '|' ∈ s) :
    tjsonb_in timestamptz_in jsonb_in (cstring s) =
      match timestamptz_in (beforeFirst '|' s) with
      | .error e =>
        ⟨.error (.TimestampParseError e), [.timestamptz_in (beforeFirst '|' s)],
          beforeFirst '|' s ++ NUL :: (afterFirst '|' s ++ [NUL])⟩
      | .ok timestamp =>
        match jsonb_in (afterFirst '|' s) with
        | .error e =>
          ⟨.error (.JsonSyntaxError e),
            [.timestamptz_in (beforeFirst '|' s), .jsonb_in (afterFirst '|' s)],
            beforeFirst '|' s ++ NUL :: (afterFirst '|' s ++ [NUL])⟩
        | .ok jsondata =>
          ⟨.ok ⟨timestamp, jsondata⟩,
            [.timestamptz_in (beforeFirst '|' s), .jsonb_in (afterFirst '|' s)],
            beforeFirst '|' s ++ NUL :: (afterFirst '|' s ++ [NUL])⟩ := by
  have hsplit := beforeFirst_append_afterFirst '|' s hmem
  have hpre : NUL ∉ beforeFirst '|' s := fun h => hnul (by
    rw [← hsplit]; exact List.mem_append_left _ h)
  have hpost : NUL ∉ afterFirst '|' s := fun h => hnul (by
    rw [← hsplit]; exact List.mem_append_right _ (List.mem_cons_of_mem _ h))
  have h := tjsonb_in_split timestamptz_in jsonb_in (beforeFirst '|' s)
    (afterFirst '|' s) (not_mem_beforeFirst '|' s) hpre hpost
  rw [hsplit] at h
  exact h

/-- What `tjsonb_in` does on the C string of a text without `|`. -/
theorem tjsonb_in_no_delimiter {J : Type}
    (timestamptz_in : List Char → Except String TimestampTz)
    (jsonb_in : List Char → Except String J) (s : List Char) (hbar : '|' ∉ s) :
    tjsonb_in timestamptz_in jsonb_in (cstring s) =
      ⟨.error (.FormatError "Invalid input format for tjsonb"), [], cstring s⟩ := by
  have h1 := strchr_cstring_none '|' s hbar (by decide)
  simp only [tjsonb_in, h1]

/-! ## Lemmas on the sample host functions, the formatter and the aggregate -/

theorem unaryIn_unaryOut (t : TimestampTz) : unaryIn (unaryOut t) = .ok t := by
  by_cases h : 0 ≤ t
  · simp [unaryOut, unaryIn, h, Int.toNat_of_nonneg h]
  · have h' : 0 ≤ -t := le_of_lt (neg_pos.mpr (not_le.mp h))
    simp [unaryOut, unaryIn, h, Int.toNat_of_nonneg h']

theorem barIn_barOut (t : TimestampTz) : barIn (barOut t) = .ok t := by
  simp [barIn, barOut, unaryIn_unaryOut]

theorem not_mem_unaryOut (c : Char) (hi : c ≠ 'i') (hp : c ≠ '+') (hm : c ≠ '-')
    (t : TimestampTz) : c ∉ unaryOut t := by
  unfold unaryOut
  split <;> simp [hi, hp, hm, List.mem_replicate]

/-- The result of `tjsonb_out` is the two host texts with a `|` between them. -/
theorem tjsonb_out_eq {J : Type} (timestamptz_out : TimestampTz → List Char)
    (JsonbToCString : J → List Char) (tjsonb : TJsonb J) :
    tjsonb_out timestamptz_out JsonbToCString tjsonb =
      timestamptz_out tjsonb.timestamp ++ '|' :: JsonbToCString tjsonb.jsondata := by
  simp [tjsonb_out, psprintf]

/-- The loop of the aggregate adds the root numbers to `total_speed`, in order,
and their count to `count`. -/
theorem aggregate_loop_eq {F : Type} (ops : Float8Ops F) (elements : List (TJsonb Jsonb))
    (total_speed : F) (count : Int) :
    aggregate_loop ops elements total_speed count =
      ((numberRoots elements).foldl (fun acc n => ops.add acc (ops.numeric_float8 n))
          total_speed,
        count + ((numberRoots elements).length : Int)) := by
  induction elements generalizing total_speed count with
  | nil => simp [aggregate_loop, numberRoots]
  | cons e es ih =>
    cases hj : e.jsondata <;>
      simp [aggregate_loop, numberRoots, JsonbExtractScalar, hj, ih]
    omega

theorem numberRoots_eq_nil_iff (docs : List (TJsonb Jsonb)) :
    numberRoots docs = [] ↔ ∀ d ∈ docs, ∀ n, d.jsondata ≠ .numeric n := by
  induction docs with
  | nil => simp [numberRoots]
  | cons e es ih =>
    cases hj : e.jsondata <;> simp [numberRoots, hj, ih]

/-! ## Claims -/

/-- C1 (the source departs from it): on `a = b = {"x": 1}` every position of the
two token streams matches in the specification's sense (same tags, equal
scalars), so the specification's `structurallyMatches` is true, while the
source's `jsonb_contains_container` returns false: it hands the two
`WJB_BEGIN_OBJECT` headers to `compare_jsonb_values`, which rejects them. -/
theorem C1_matching_container_tags_return_false :
    Spec.structurallyMatches (.object [("x".toList, .numeric ⟨1, 0⟩)])
        (.object [("x".toList, .numeric ⟨1, 0⟩)]) = true ∧
      jsonb_contains_container (.object [("x".toList, .numeric ⟨1, 0⟩)])
        (.object [("x".toList, .numeric ⟨1, 0⟩)]) = false := by
  refine ⟨by decide, ?_⟩
  simp [jsonb_contains_container, jsonb_contains_loop, JsonbIteratorInit,
    JsonbIteratorNext, Jsonb.pulls, compare_jsonb_values, JsonbValue.type]

/-- C2 (the source departs from it): reflexivity fails on every document; for
each `d`, `jsonb_contains_container d d` is false. -/
theorem C2_reflexivity_fails (d : Jsonb) : jsonb_contains_container d d = false :=
  jsonb_contains_container_eq_false d d

/-- C3 (the source departs from it): on `a = b = ⟨5, {"x": 1}⟩` the timestamps
are equal and the documents match in the specification's sense, so `overlaps`
should be true; the source's `tjsonb_overlaps` returns false, because
`jsonb_contains_container` rejects the two object headers. -/
theorem C3_overlaps_false_on_matching_documents :
    (⟨5, .object [("x".toList, .numeric ⟨1, 0⟩)]⟩ : TJsonb Jsonb).timestamp =
        (⟨5, .object [("x".toList, .numeric ⟨1, 0⟩)]⟩ : TJsonb Jsonb).timestamp ∧
      Spec.structurallyMatches (.object [("x".toList, .numeric ⟨1, 0⟩)])
        (.object [("x".toList, .numeric ⟨1, 0⟩)]) = true ∧
      tjsonb_overlaps ⟨5, .object [("x".toList, .numeric ⟨1, 0⟩)]⟩
        ⟨5, .object [("x".toList, .numeric ⟨1, 0⟩)]⟩ = false := by
  refine ⟨rfl, by decide, ?_⟩
  simp [tjsonb_overlaps, jsonb_contains_container, jsonb_contains_loop,
    JsonbIteratorInit, JsonbIteratorNext, Jsonb.pulls, compare_jsonb_values,
    JsonbValue.type]

/-- C4 (the source departs from it): on `start = ⟨5, {"x": 1}⟩` and
`stop = ⟨7, {"x": 1}⟩` the start timestamp is not after the stop timestamp and
the documents match in the specification's sense, so the report should be
"Overlap found within range"; the source's `tjsonb_range` returns
"No overlap in specified range", because `jsonb_contains_container` rejects the
two object headers. -/
theorem C4_range_no_overlap_on_matching_documents :
    (⟨5, .object [("x".toList, .numeric ⟨1, 0⟩)]⟩ : TJsonb Jsonb).timestamp ≤
        (⟨7, .object [("x".toList, .numeric ⟨1, 0⟩)]⟩ : TJsonb Jsonb).timestamp ∧
      Spec.structurallyMatches (.object [("x".toList, .numeric ⟨1, 0⟩)])
        (.object [("x".toList, .numeric ⟨1, 0⟩)]) = true ∧
      tjsonb_range ⟨5, .object [("x".toList, .numeric ⟨1, 0⟩)]⟩
        ⟨7, .object [("x".toList, .numeric ⟨1, 0⟩)]⟩ = "No overlap in specified range" ∧
      tjsonb_range ⟨5, .object [("x".toList, .numeric ⟨1, 0⟩)]⟩
        ⟨7, .object [("x".toList, .numeric ⟨1, 0⟩)]⟩ ≠ "Overlap found within range" := by
  have h : tjsonb_range ⟨5, .object [("x".toList, .numeric ⟨1, 0⟩)]⟩
      ⟨7, .object [("x".toList, .numeric ⟨1, 0⟩)]⟩ = "No overlap in specified range" := by
    simp [tjsonb_range, jsonb_contains_container, jsonb_contains_loop,
      JsonbIteratorInit, JsonbIteratorNext, Jsonb.pulls, compare_jsonb_values,
      JsonbValue.type]
  refine ⟨by decide, by decide, h, ?_⟩
  rw [h]
  decide

/-- C5: on the C string of a text `s`, `tjsonb_in` ends with its own error
"Invalid input format for tjsonb" exactly when `s` holds no `|`; in that case it
calls neither host parser and returns no value. -/
theorem C5_format_error_iff_no_delimiter {J : Type}
    (timestamptz_in : List Char → Except String TimestampTz)
    (jsonb_in : List Char → Except String J) (s : List Char) (hnul : NUL ∉ s) :
    ((∃ msg, (tjsonb_in timestamptz_in jsonb_in (cstring s)).result =
        .error (.FormatError msg)) ↔ '|' ∉ s) ∧
      ('|' ∉ s →
        (tjsonb_in timestamptz_in jsonb_in (cstring s)).result =
            .error (.FormatError "Invalid input format for tjsonb") ∧
          (tjsonb_in timestamptz_in jsonb_in (cstring s)).calls = []) := by
  refine ⟨⟨?_, ?_⟩, ?_⟩
  · rintro ⟨msg, hmsg⟩ hmem
    rw [tjsonb_in_delimiter timestamptz_in jsonb_in s hnul hmem] at hmsg
    cases h1 : timestamptz_in (beforeFirst '|' s) with
    | error e => simp [h1] at hmsg
    | ok t =>
      cases h2 : jsonb_in (afterFirst '|' s) with
      | error e => simp [h1, h2] at hmsg
      | ok j => simp [h1, h2] at hmsg
  · intro hbar
    exact ⟨_, by rw [tjsonb_in_no_delimiter timestamptz_in jsonb_in s hbar]⟩
  · intro hbar
    rw [tjsonb_in_no_delimiter timestamptz_in jsonb_in s hbar]
    exact ⟨rfl, rfl⟩

/-- C5 at the text "no-delimiter-here". -/
theorem C5_witness :
    NUL ∉ "no-delimiter-here".toList ∧
      (tjsonb_in unaryIn unitIn (cstring "no-delimiter-here".toList)).result =
        .error (.FormatError "Invalid input format for tjsonb") ∧
      (tjsonb_in unaryIn unitIn (cstring "no-delimiter-here".toList)).calls = [] :=
  ⟨by decide,
    (C5_format_error_iff_no_delimiter unaryIn unitIn "no-delimiter-here".toList
      (by decide)).2 (by decide)⟩

/-- C6: on the C string of a text `s` that holds a `|`, `tjsonb_in` calls the
timestamp parser once, on the part of `s` before the first `|`, and, when that
call succeeds, calls the JSON parser once, on all of `s` after that first `|`
(when it fails, the error ends the run before the JSON parser is reached). The
two parts joined by a `|` are `s`, and the first holds no `|`. -/
theorem C6_split_at_first_delimiter {J : Type}
    (timestamptz_in : List Char → Except String TimestampTz)
    (jsonb_in : List Char → Except String J) (s : List Char)
    (hnul : NUL ∉ s) (hmem : '|' ∈ s) :
    (tjsonb_in timestamptz_in jsonb_in (cstring s)).calls =
        (match timestamptz_in (beforeFirst '|' s) with
          | .ok _ => [.timestamptz_in (beforeFirst '|' s), .jsonb_in (afterFirst '|' s)]
          | .error _ => [.timestamptz_in (beforeFirst '|' s)]) ∧
      beforeFirst '|' s ++ '|' :: afterFirst '|' s = s ∧
      '|' ∉ beforeFirst '|' s ∧
      (∀ pre post, s = pre ++ '|' :: post → '|' ∉ pre →
        beforeFirst '|' s = pre ∧ afterFirst '|' s = post) := by
  refine ⟨?_, beforeFirst_append_afterFirst '|' s hmem, not_mem_beforeFirst '|' s, ?_⟩
  · rw [tjsonb_in_delimiter timestamptz_in jsonb_in s hnul hmem]
    cases h1 : timestamptz_in (beforeFirst '|' s) with
    | error e => rfl
    | ok t =>
      cases h2 : jsonb_in (afterFirst '|' s) with
      | error e => rfl
      | ok j => rfl
  · intro pre post hs hpre
    subst hs
    exact ⟨beforeFirst_append_cons '|' pre post hpre,
      afterFirst_append_cons '|' pre post hpre⟩

/-- C6 at the text "+ii|a|b": the timestamp parser gets "+ii" and the JSON
parser gets "a|b", later `|` included. -/
theorem C6_witness :
    (tjsonb_in unaryIn unitIn (cstring "+ii|a|b".toList)).calls =
      [.timestamptz_in "+ii".toList, .jsonb_in "a|b".toList] :=
  (C6_split_at_first_delimiter unaryIn unitIn "+ii|a|b".toList
    (by decide) (by decide)).1.trans (by decide)

/-- C7: on the C string of a text `s` that holds a `|`, with `ts` the part
before the first `|` and `js` the part after it: `tjsonb_in` returns a value
exactly when both host parsers succeed, and the value pairs their two results;
when the timestamp parser fails its error is the outcome, whatever the JSON
parser would say of `js`; when the timestamp parser succeeds and the JSON
parser fails, the JSON parser's error is the outcome. -/
theorem C7_propagation {J : Type}
    (timestamptz_in : List Char → Except String TimestampTz)
    (jsonb_in : List Char → Except String J) (s : List Char)
    (hnul : NUL ∉ s) (hmem : '|' ∈ s) :
    (∀ d, (tjsonb_in timestamptz_in jsonb_in (cstring s)).result = .ok d ↔
        timestamptz_in (beforeFirst '|' s) = .ok d.timestamp ∧
          jsonb_in (afterFirst '|' s) = .ok d.jsondata) ∧
      (∀ e, timestamptz_in (beforeFirst '|' s) = .error e →
        (tjsonb_in timestamptz_in jsonb_in (cstring s)).result =
          .error (.TimestampParseError e)) ∧
      (∀ t e, timestamptz_in (beforeFirst '|' s) = .ok t →
        jsonb_in (afterFirst '|' s) = .error e →
        (tjsonb_in timestamptz_in jsonb_in (cstring s)).result =
          .error (.JsonSyntaxError e)) := by
  rw [tjsonb_in_delimiter timestamptz_in jsonb_in s hnul hmem]
  refine ⟨?_, ?_, ?_⟩
  · intro d
    cases h1 : timestamptz_in (beforeFirst '|' s) with
    | error e => simp
    | ok t =>
      cases h2 : jsonb_in (afterFirst '|' s) with
      | error e => simp
      | ok j =>
        cases d with
        | mk dt dj => simp only [Except.ok.injEq, TJsonb.mk.injEq]
  · intro e h1
    simp [h1]
  · intro t e h1 h2
    simp [h1, h2]

/-- C7 at the text "+ii|x" with a timestamp parser and a JSON parser that both
succeed: the value pairs the timestamp 2 with the parsed document. -/
theorem C7_witness :
    (tjsonb_in unaryIn unitIn (cstring "+ii|x".toList)).result = .ok ⟨2, ()⟩ :=
  ((C7_propagation unaryIn unitIn "+ii|x".toList (by decide) (by decide)).1
    ⟨2, ()⟩).2 ⟨rfl, rfl⟩

/-- C8 as stated fails: `barIn` undoes `barOut` and `unitIn` undoes `unitOut`,
the text "+|null" parses to the timestamp 0 with the one document, and its
formatted text "|+|null" does not parse back, because the text of the
timestamp itself holds the first `|`. -/
theorem C8_counterexample :
    (∀ t, barIn (barOut t) = .ok t) ∧ (∀ j, unitIn (unitOut j) = .ok j) ∧
      (tjsonb_in barIn unitIn (cstring "+|null".toList)).result = .ok ⟨0, ()⟩ ∧
      tjsonb_out barOut unitOut ⟨0, ()⟩ = "|+|null".toList ∧
      (tjsonb_in barIn unitIn (cstring (tjsonb_out barOut unitOut ⟨0, ()⟩))).result =
        .error (.TimestampParseError
          "invalid input syntax for type timestamp with time zone") :=
  ⟨barIn_barOut, fun _ => rfl, rfl, rfl, rfl⟩

/-- C8, amended: let the host parsers undo the host formatters, let the
formatters return C strings (no NUL inside), and let the timestamp formatter
never write a `|`. Then for every text `s` that `tjsonb_in` accepts, with value
`d`, the text `tjsonb_out d` is accepted as well and parses to the same `d`. -/
theorem C8_round_trip {J : Type}
    (timestamptz_in : List Char → Except String TimestampTz)
    (timestamptz_out : TimestampTz → List Char)
    (jsonb_in : List Char → Except String J) (JsonbToCString : J → List Char)
    (hts : ∀ t, timestamptz_in (timestamptz_out t) = .ok t)
    (hjs : ∀ j, jsonb_in (JsonbToCString j) = .ok j)
    (hbar : ∀ t, '|' ∉ timestamptz_out t)
    (hnul_ts : ∀ t, NUL ∉ timestamptz_out t)
    (hnul_js : ∀ j, NUL ∉ JsonbToCString j)
    (s : List Char) (d : TJsonb J)
    (_hs : (tjsonb_in timestamptz_in jsonb_in (cstring s)).result = .ok d) :
    (tjsonb_in timestamptz_in jsonb_in
        (cstring (tjsonb_out timestamptz_out JsonbToCString d))).result = .ok d := by
  rw [tjsonb_out_eq,
    tjsonb_in_split timestamptz_in jsonb_in (timestamptz_out d.timestamp)
      (JsonbToCString d.jsondata) (hbar _) (hnul_ts _) (hnul_js _)]
  simp [hts, hjs]

/-- C8, amended, at the text "+ii|x" with `unaryIn`, `unaryOut`, `unitIn` and
`unitOut`: its value is the timestamp 2 with the one document, and the
formatted text "+ii|null" parses to the same value. -/
theorem C8_witness :
    (tjsonb_in unaryIn unitIn (cstring "+ii|x".toList)).result = .ok ⟨2, ()⟩ ∧
      (tjsonb_in unaryIn unitIn
        (cstring (tjsonb_out unaryOut unitOut ⟨2, ()⟩))).result = .ok ⟨2, ()⟩ :=
  ⟨rfl,
    C8_round_trip unaryIn unaryOut unitIn unitOut unaryIn_unaryOut (fun _ => rfl)
      (not_mem_unaryOut '|' (by decide) (by decide) (by decide))
      (not_mem_unaryOut NUL (by decide) (by decide) (by decide))
      (fun j => by cases j; decide) "+ii|x".toList ⟨2, ()⟩ rfl⟩

/-- C9: `tjsonb_out` returns the text of `timestamptz_out` for the timestamp,
then one `|`, then the text of `JsonbToCString` for the document, and nothing
else; it is a total function of the document and the two host formatters. -/
theorem C9_format {J : Type} (timestamptz_out : TimestampTz → List Char)
    (JsonbToCString : J → List Char) (tjsonb : TJsonb J) :
    tjsonb_out timestamptz_out JsonbToCString tjsonb =
      timestamptz_out tjsonb.timestamp ++ ['|'] ++ JsonbToCString tjsonb.jsondata := by
  simp [tjsonb_out, psprintf]

/-- C10: `tjsonb_aggregate_speed` returns NULL exactly when no document of the
input has a number as its root; otherwise it returns the sum of the root
numbers (formed in input order, from 0, in the host's float8 arithmetic)
divided by their count, the documents with any other root being passed over. -/
theorem C10_average {F : Type} (ops : Float8Ops F) (docs : List (TJsonb Jsonb)) :
    (tjsonb_aggregate_speed ops docs = none ↔
        ∀ d ∈ docs, ∀ n, d.jsondata ≠ .numeric n) ∧
      tjsonb_aggregate_speed ops docs =
        (match numberRoots docs with
          | [] => none
          | n :: ns =>
            some (ops.div (float8Sum ops (n :: ns))
              (ops.ofInt ((n :: ns).length : Int)))) := by
  have hloop := aggregate_loop_eq ops docs ops.zero 0
  have hres : tjsonb_aggregate_speed ops docs =
      (match numberRoots docs with
        | [] => none
        | n :: ns =>
          some (ops.div (float8Sum ops (n :: ns))
            (ops.ofInt ((n :: ns).length : Int)))) := by
    unfold tjsonb_aggregate_speed
    rw [hloop]
    cases hn : numberRoots docs with
    | nil => simp
    | cons n ns =>
      have hne : ¬ ((ns.length : Int) + 1 = 0) := by omega
      simp [float8Sum, hne]
  refine ⟨?_, hres⟩
  rw [← numberRoots_eq_nil_iff, hres]
  cases hn : numberRoots docs <;> simp

/-- C10 at the documents with roots 3, "x" and 5, in exact arithmetic: the
string root is passed over and the result is (3 + 5) / 2 = 4; on no documents
the result is NULL. -/
theorem C10_witness :
    tjsonb_aggregate_speed exactOps
        [⟨0, .numeric ⟨3, 0⟩⟩, ⟨0, .string "x".toList⟩, ⟨0, .numeric ⟨5, 0⟩⟩] = some 4 ∧
      tjsonb_aggregate_speed exactOps [] = none :=
  ⟨(C10_average exactOps
      [⟨0, .numeric ⟨3, 0⟩⟩, ⟨0, .string "x".toList⟩, ⟨0, .numeric ⟨5, 0⟩⟩]).2.trans
      (by norm_num [numberRoots, float8Sum, exactOps]),
    (C10_average exactOps []).2⟩

/-! ## Lemmas on the counted loop -/

/-- One round of the counted loop on two iterators that both have a pull left. -/
theorem jsonb_contains_trace_cons (p1 p2 : Pull) (r1 r2 : JsonbIterator)
    (v1 v2 : JsonbValue) :
    jsonb_contains_trace (p1 :: r1) (p2 :: r2) v1 v2 =
      if p1.tok = .WJB_DONE then ⟨true, 0, 1, 0⟩
      else if p2.tok = .WJB_DONE then ⟨true, 0, 1, 1⟩
      else if p1.tok ≠ p2.tok ||
          !compare_jsonb_values (p1.val.getD v1) (p2.val.getD v2) then ⟨false, 1, 1, 1⟩
      else
        ⟨(jsonb_contains_trace r1 r2 (p1.val.getD v1) (p2.val.getD v2)).result,
          (jsonb_contains_trace r1 r2 (p1.val.getD v1) (p2.val.getD v2)).iterations + 1,
          (jsonb_contains_trace r1 r2 (p1.val.getD v1) (p2.val.getD v2)).pulls1 + 1,
          (jsonb_contains_trace r1 r2 (p1.val.getD v1) (p2.val.getD v2)).pulls2 + 1⟩ := by
  rw [jsonb_contains_trace]
  simp only [JsonbIteratorNext]
  split <;> rfl

/-- One round of the loop on two iterators that both have a pull left. -/
theorem jsonb_contains_loop_cons (p1 p2 : Pull) (r1 r2 : JsonbIterator)
    (v1 v2 : JsonbValue) :
    jsonb_contains_loop (p1 :: r1) (p2 :: r2) v1 v2 =
      if p1.tok = .WJB_DONE then true
      else if p2.tok = .WJB_DONE then true
      else if p1.tok ≠ p2.tok ||
          !compare_jsonb_values (p1.val.getD v1) (p2.val.getD v2) then false
      else jsonb_contains_loop r1 r2 (p1.val.getD v1) (p2.val.getD v2) := by
  rw [jsonb_contains_loop]
  simp only [JsonbIteratorNext]
  split <;> rfl

theorem jsonb_contains_trace_nil (it2 : JsonbIterator) (v1 v2 : JsonbValue) :
    jsonb_contains_trace [] it2 v1 v2 = ⟨true, 0, 1, 0⟩ := by
  rw [jsonb_contains_trace]
  simp [JsonbIteratorNext]

theorem jsonb_contains_trace_cons_nil (p1 : Pull) (r1 : JsonbIterator)
    (v1 v2 : JsonbValue) :
    jsonb_contains_trace (p1 :: r1) [] v1 v2 =
      if p1.tok = .WJB_DONE then ⟨true, 0, 1, 0⟩ else ⟨true, 0, 1, 1⟩ := by
  rw [jsonb_contains_trace]
  simp [JsonbIteratorNext]

theorem jsonb_contains_loop_nil (it2 : JsonbIterator) (v1 v2 : JsonbValue) :
    jsonb_contains_loop [] it2 v1 v2 = true := by
  rw [jsonb_contains_loop]
  simp [JsonbIteratorNext]

theorem jsonb_contains_loop_cons_nil (p1 : Pull) (r1 : JsonbIterator)
    (v1 v2 : JsonbValue) : jsonb_contains_loop (p1 :: r1) [] v1 v2 = true := by
  rw [jsonb_contains_loop]
  simp [JsonbIteratorNext]

/-- The counted loop returns what the loop returns. -/
theorem jsonb_contains_trace_result (it1 it2 : JsonbIterator) (v1 v2 : JsonbValue) :
    (jsonb_contains_trace it1 it2 v1 v2).result = jsonb_contains_loop it1 it2 v1 v2 := by
  induction it1 generalizing it2 v1 v2 with
  | nil => rw [jsonb_contains_trace_nil, jsonb_contains_loop_nil]
  | cons p1 r1 ih =>
    cases it2 with
    | nil =>
      rw [jsonb_contains_trace_cons_nil, jsonb_contains_loop_cons_nil]
      split <;> rfl
    | cons p2 r2 =>
      rw [jsonb_contains_trace_cons, jsonb_contains_loop_cons]
      split
      · rfl
      · split
        · rfl
        · split
          · rfl
          · exact ih r2 _ _

/-- The loop body runs at most as often as the shorter iterator has pulls, and
each iterator serves at most one pull more than the body runs. -/
theorem jsonb_contains_trace_bounds (it1 it2 : JsonbIterator) (v1 v2 : JsonbValue) :
    (jsonb_contains_trace it1 it2 v1 v2).iterations ≤ min it1.length it2.length ∧
      (jsonb_contains_trace it1 it2 v1 v2).pulls1 ≤
        (jsonb_contains_trace it1 it2 v1 v2).iterations + 1 ∧
      (jsonb_contains_trace it1 it2 v1 v2).pulls2 ≤
        (jsonb_contains_trace it1 it2 v1 v2).iterations + 1 := by
  induction it1 generalizing it2 v1 v2 with
  | nil => rw [jsonb_contains_trace_nil]; simp
  | cons p1 r1 ih =>
    cases it2 with
    | nil => rw [jsonb_contains_trace_cons_nil]; split <;> simp
    | cons p2 r2 =>
      rw [jsonb_contains_trace_cons]
      split
      · simp
      · split
        · simp
        · split
          · simp
          · have h := ih r2 (p1.val.getD v1) (p2.val.getD v2)
            simp only [List.length_cons]
            omega

/-- A round of the counted loop that compares a container header is the last:
the function returns false after one run of the body and one pull from each
iterator. -/
theorem jsonb_contains_trace_header (p1 p2 : Pull) (r1 r2 : JsonbIterator)
    (v1 v2 x : JsonbValue) (h1 : p1.tok ≠ .WJB_DONE) (h2 : p2.tok ≠ .WJB_DONE)
    (hx : p1.val = some x) (ht : x.type = .jbvArray ∨ x.type = .jbvObject) :
    jsonb_contains_trace (p1 :: r1) (p2 :: r2) v1 v2 = ⟨false, 1, 1, 1⟩ := by
  rw [jsonb_contains_trace_cons]
  simp [h1, h2, hx, compare_jsonb_values_header x _ ht]

/-- On every two documents the counted loop returns false in its first round. -/
theorem jsonb_contains_trace_eq (a b : Jsonb) :
    jsonb_contains_trace (JsonbIteratorInit a) (JsonbIteratorInit b) .jbvNull .jbvNull =
      ⟨false, 1, 1, 1⟩ := by
  obtain ⟨p1, r1, x, ha, h1, hx, ht⟩ := JsonbIteratorInit_begin a
  obtain ⟨p2, r2, y, hb, h2, _, _⟩ := JsonbIteratorInit_begin b
  rw [ha, hb]
  exact jsonb_contains_trace_header p1 p2 r1 r2 _ _ x h1 h2 hx ht

/-! ## Lemmas on the aggregate and on root numbers -/

/-- The aggregate as a function of the root numbers of its input. -/
theorem tjsonb_aggregate_speed_eq {F : Type} (ops : Float8Ops F)
    (docs : List (TJsonb Jsonb)) :
    tjsonb_aggregate_speed ops docs =
      (match numberRoots docs with
        | [] => none
        | n :: ns =>
          some (ops.div (float8Sum ops (n :: ns)) (ops.ofInt ((n :: ns).length : Int)))) := by
  unfold tjsonb_aggregate_speed
  rw [aggregate_loop_eq ops docs ops.zero 0]
  cases hn : numberRoots docs with
  | nil => simp
  | cons n ns =>
    have hne : ¬ ((ns.length : Int) + 1 = 0) := by omega
    simp [float8Sum, hne]

theorem numberRoots_append (xs ys : List (TJsonb Jsonb)) :
    numberRoots (xs ++ ys) = numberRoots xs ++ numberRoots ys := by
  induction xs with
  | nil => simp [numberRoots]
  | cons e es ih => cases hj : e.jsondata <;> simp [numberRoots, hj, ih]

theorem numberRoots_speedDocs (l : List (TimestampTz × Numeric)) :
    numberRoots (l.map (fun p => (⟨p.1, speedDoc p.2⟩ : TJsonb Jsonb))) = [] := by
  induction l with
  | nil => simp [numberRoots]
  | cons e es ih => simpa [numberRoots, speedDoc] using ih

/-! ## Claims, continued -/

/-- C11: a document whose root is the object `{"speed": n}` leaves
`total_speed` and `count` as they are when the loop passes it; the aggregate of
documents that are all of this kind is NULL; and putting such a document
anywhere into an input leaves the aggregate of that input unchanged. -/
theorem C11_speed_field_not_read {F : Type} (ops : Float8Ops F) (n : Numeric)
    (t : TimestampTz) (pre post : List (TJsonb Jsonb)) (total_speed : F) (count : Int)
    (l : List (TimestampTz × Numeric)) :
    aggregate_loop ops (⟨t, speedDoc n⟩ :: post) total_speed count =
        aggregate_loop ops post total_speed count ∧
      tjsonb_aggregate_speed ops (l.map (fun p => ⟨p.1, speedDoc p.2⟩)) = none ∧
      tjsonb_aggregate_speed ops (pre ++ ⟨t, speedDoc n⟩ :: post) =
        tjsonb_aggregate_speed ops (pre ++ post) := by
  refine ⟨by simp [aggregate_loop, speedDoc, JsonbExtractScalar], ?_, ?_⟩
  · rw [tjsonb_aggregate_speed_eq, numberRoots_speedDocs]
  · have h : numberRoots (pre ++ ⟨t, speedDoc n⟩ :: post) = numberRoots (pre ++ post) := by
      rw [numberRoots_append, numberRoots_append]
      simp [numberRoots, speedDoc]
    rw [tjsonb_aggregate_speed_eq, tjsonb_aggregate_speed_eq, h]

/-- The walk of the specification on `{"x": 1, "y": 2}` and `{"x": 1}` stops
with false at position 3, where the first stream has `Key` and the second has
`EndObject`. -/
theorem Spec_prefix_example_walk :
    Spec.firstMismatch
        (Spec.iterate
          (.object [("x".toList, .numeric ⟨1, 0⟩), ("y".toList, .numeric ⟨2, 0⟩)]))
        (Spec.iterate (.object [("x".toList, .numeric ⟨1, 0⟩)])) = some 3 ∧
      Spec.structurallyMatches
        (.object [("x".toList, .numeric ⟨1, 0⟩), ("y".toList, .numeric ⟨2, 0⟩)])
        (.object [("x".toList, .numeric ⟨1, 0⟩)]) = false := by
  refine ⟨by decide, by decide⟩

/-- C12 as stated fails: on `a = {"x": 1, "y": 2}` and `b = {"x": 1}` the
source's `jsonb_contains_container` does not return true. -/
theorem C12_counterexample :
    ¬ jsonb_contains_container
        (.object [("x".toList, .numeric ⟨1, 0⟩), ("y".toList, .numeric ⟨2, 0⟩)])
        (.object [("x".toList, .numeric ⟨1, 0⟩)]) = true := by
  simp [jsonb_contains_container_eq_false]

/-- C12, amended: on `a = {"x": 1, "y": 2}` and `b = {"x": 1}` the source's
`jsonb_contains_container` returns false, and neither iterator reaches
`WJB_DONE`: the loop ends by returning false on a pair of tokens it has
compared (its body has run, and each iterator has served no more pulls than
its document has tokens). -/
theorem C12_prefix_example_is_false :
    jsonb_contains_container
        (.object [("x".toList, .numeric ⟨1, 0⟩), ("y".toList, .numeric ⟨2, 0⟩)])
        (.object [("x".toList, .numeric ⟨1, 0⟩)]) = false ∧
      (jsonb_contains_trace
        (JsonbIteratorInit
          (.object [("x".toList, .numeric ⟨1, 0⟩), ("y".toList, .numeric ⟨2, 0⟩)]))
        (JsonbIteratorInit (.object [("x".toList, .numeric ⟨1, 0⟩)]))
        .jbvNull .jbvNull).result = false ∧
      1 ≤ (jsonb_contains_trace
        (JsonbIteratorInit
          (.object [("x".toList, .numeric ⟨1, 0⟩), ("y".toList, .numeric ⟨2, 0⟩)]))
        (JsonbIteratorInit (.object [("x".toList, .numeric ⟨1, 0⟩)]))
        .jbvNull .jbvNull).iterations ∧
      (jsonb_contains_trace
        (JsonbIteratorInit
          (.object [("x".toList, .numeric ⟨1, 0⟩), ("y".toList, .numeric ⟨2, 0⟩)]))
        (JsonbIteratorInit (.object [("x".toList, .numeric ⟨1, 0⟩)]))
        .jbvNull .jbvNull).pulls1 ≤
          (JsonbIteratorInit
            (.object [("x".toList, .numeric ⟨1, 0⟩),
              ("y".toList, .numeric ⟨2, 0⟩)])).length ∧
      (jsonb_contains_trace
        (JsonbIteratorInit
          (.object [("x".toList, .numeric ⟨1, 0⟩), ("y".toList, .numeric ⟨2, 0⟩)]))
        (JsonbIteratorInit (.object [("x".toList, .numeric ⟨1, 0⟩)]))
        .jbvNull .jbvNull).pulls2 ≤
          (JsonbIteratorInit (.object [("x".toList, .numeric ⟨1, 0⟩)])).length := by
  have ht : jsonb_contains_trace
      (JsonbIteratorInit
        (.object [("x".toList, .numeric ⟨1, 0⟩), ("y".toList, .numeric ⟨2, 0⟩)]))
      (JsonbIteratorInit (.object [("x".toList, .numeric ⟨1, 0⟩)]))
      .jbvNull .jbvNull = ⟨false, 1, 1, 1⟩ := by
    simp [jsonb_contains_trace_cons, JsonbIteratorInit, Jsonb.pulls,
      compare_jsonb_values, JsonbValue.type]
  rw [ht]
  refine ⟨?_, rfl, Nat.le_refl 1, by decide, by decide⟩
  simp [jsonb_contains_container, jsonb_contains_loop_cons, JsonbIteratorInit,
    Jsonb.pulls, compare_jsonb_values, JsonbValue.type]

/-- C13 (the source departs from it): for every key `k`, number `n` and string
`s`, the walk of the specification on `{k: n}` and `{k: s}` stops with false at
position 2, the value position, the two positions before it having matched;
the source's loop returns false as well, but in its first round, on the two
`WJB_BEGIN_OBJECT` headers, after one pull from each iterator. -/
theorem C13_type_mismatch_fails_at_header (k : List Char) (n : Numeric) (s : List Char) :
    Spec.firstMismatch (Spec.iterate (.object [(k, .numeric n)]))
        (Spec.iterate (.object [(k, .string s)])) = some 2 ∧
      jsonb_contains_trace (JsonbIteratorInit (.object [(k, .numeric n)]))
        (JsonbIteratorInit (.object [(k, .string s)])) .jbvNull .jbvNull =
          ⟨false, 1, 1, 1⟩ ∧
      jsonb_contains_container (.object [(k, .numeric n)]) (.object [(k, .string s)]) =
        false := by
  refine ⟨?_, jsonb_contains_trace_eq _ _, jsonb_contains_container_eq_false _ _⟩
  simp [Spec.iterate, Spec.iteratePairs, Spec.firstMismatch, Spec.stepMatches,
    Spec.Token.sameTag, Spec.scalarsEqual]

/-! ## Lemmas on `compare_jsonb_values` -/

theorem char_toNat_inj (a b : Char) (h : a.toNat = b.toNat) : a = b := by
  rw [← Char.ofNat_toNat a, ← Char.ofNat_toNat b, h]

theorem char_toNat_sub_ne_zero (a b : Char) (h : a ≠ b) :
    (a.toNat : Int) - (b.toNat : Int) ≠ 0 := by
  intro h0
  apply h
  apply char_toNat_inj
  omega

theorem char_toNat_eq_zero_iff (a : Char) : a.toNat = 0 ↔ a = '\x00' := by
  constructor
  · intro h
    exact char_toNat_inj a '\x00' (by rw [h]; rfl)
  · intro h
    rw [h]; rfl

/-- Whether `strncmp` finds its arguments equal does not depend on their order. -/
theorem strncmp_eq_zero_comm (s1 s2 : List Char) (n : Nat) :
    strncmp s1 s2 n = 0 ↔ strncmp s2 s1 n = 0 := by
  induction n generalizing s1 s2 with
  | zero => simp [strncmp]
  | succ n ih =>
    cases s1 with
    | nil =>
      cases s2 with
      | nil => simp [strncmp]
      | cons b s2 =>
        by_cases hb : b = '\x00'
        · simp [strncmp, hb]
        · have : b.toNat ≠ 0 := fun h => hb ((char_toNat_eq_zero_iff b).mp h)
          simp [strncmp, hb, this]
    | cons a s1 =>
      cases s2 with
      | nil =>
        by_cases ha : a = '\x00'
        · simp [strncmp, ha]
        · have : a.toNat ≠ 0 := fun h => ha ((char_toNat_eq_zero_iff a).mp h)
          simp [strncmp, ha, this]
      | cons b s2 =>
        by_cases hab : a = b
        · subst hab
          by_cases ha : a = '\x00'
          · simp [strncmp, ha]
          · simp [strncmp, ha, ih s1 s2]
        · have hba : ¬ b = a := fun h => hab h.symm
          have h1 := char_toNat_sub_ne_zero a b hab
          have h2 := char_toNat_sub_ne_zero b a hba
          simp [strncmp, hab, hba, h1, h2]

/-- On two sequences of one length, the first without NUL, `strncmp` over that
length finds them equal exactly when they are the same sequence. -/
theorem strncmp_eq_zero_iff (s1 s2 : List Char) (hlen : s1.length = s2.length)
    (hn : NUL ∉ s1) : strncmp s1 s2 s1.length = 0 ↔ s1 = s2 := by
  induction s1 generalizing s2 with
  | nil =>
    cases s2 with
    | nil => simp [strncmp]
    | cons b s2 => simp at hlen
  | cons a s1 ih =>
    cases s2 with
    | nil => simp at hlen
    | cons b s2 =>
      have hlen1 : s1.length = s2.length := by simpa using hlen
      have ha : ¬ a = '\x00' := fun h => hn (by simp [NUL, h])
      have hn1 : NUL ∉ s1 := fun h => hn (List.mem_cons_of_mem _ h)
      by_cases hab : a = b
      · subst hab
        simp [strncmp, ha, ih s2 hlen1 hn1]
      · have h1 := char_toNat_sub_ne_zero a b hab
        simp [strncmp, hab, h1]

/-- The host's `numeric_cmp` returns 0 exactly on two numerics of one value. -/
theorem numeric_cmp_eq_zero_iff (a b : Numeric) :
    numeric_cmp a b = 0 ↔ a.value = b.value := by
  have ha : ((10 : ℚ) ^ a.dscale) ≠ 0 := pow_ne_zero _ (by norm_num)
  have hb : ((10 : ℚ) ^ b.dscale) ≠ 0 := pow_ne_zero _ (by norm_num)
  have hval : a.value = b.value ↔
      a.digits * (10 : Int) ^ b.dscale = b.digits * (10 : Int) ^ a.dscale := by
    unfold Numeric.value
    rw [div_eq_div_iff ha hb]
    constructor
    · intro h; exact_mod_cast h
    · intro h; exact_mod_cast h
  rw [hval]
  unfold numeric_cmp
  generalize a.digits * (10 : Int) ^ b.dscale = x
  generalize b.digits * (10 : Int) ^ a.dscale = y
  simp only
  by_cases h1 : x < y
  · have hne : ¬ x = y := by omega
    simp [h1, hne]
  · by_cases h2 : y < x
    · have hne : ¬ x = y := by omega
      simp [h1, h2, hne]
    · have he : x = y := by omega
      simp [h1, h2, he]

theorem numeric_cmp_eq_zero_comm (a b : Numeric) :
    numeric_cmp a b = 0 ↔ numeric_cmp b a = 0 := by
  rw [numeric_cmp_eq_zero_iff, numeric_cmp_eq_zero_iff]
  exact eq_comm

/-- The source's `compare_jsonb_values` on two strings. -/
theorem compare_jsonb_values_string (s1 s2 : List Char) :
    compare_jsonb_values (.jbvString s1) (.jbvString s2) =
      (s1.length == s2.length && strncmp s1 s2 s1.length == 0) := by
  simp [compare_jsonb_values, JsonbValue.type]

/-- The source's `compare_jsonb_values` gives one answer for both orders of its
arguments. -/
theorem compare_jsonb_values_comm (v1 v2 : JsonbValue) :
    compare_jsonb_values v1 v2 = compare_jsonb_values v2 v1 := by
  cases v1 <;> cases v2 <;>
    try (simp [compare_jsonb_values, JsonbValue.type]; done)
  · rename_i s1 s2
    rw [compare_jsonb_values_string, compare_jsonb_values_string, Bool.eq_iff_iff]
    simp only [Bool.and_eq_true, beq_iff_eq]
    constructor
    · rintro ⟨hl, h⟩
      exact ⟨hl.symm, by rw [← hl]; exact (strncmp_eq_zero_comm _ _ _).mp h⟩
    · rintro ⟨hl, h⟩
      exact ⟨hl.symm, by rw [← hl]; exact (strncmp_eq_zero_comm _ _ _).mp h⟩
  · rename_i n1 n2
    rw [Bool.eq_iff_iff]
    simp only [compare_jsonb_values, JsonbValue.type, ne_eq, not_true_eq_false, ite_false,
      beq_iff_eq]
    exact numeric_cmp_eq_zero_comm n1 n2
  · rename_i b1 b2
    cases b1 <;> cases b2 <;> simp [compare_jsonb_values, JsonbValue.type]

/-- On two strings of which one holds no NUL, the source's
`compare_jsonb_values` is true exactly when they are the same sequence. -/
theorem compare_jsonb_values_string_iff (s1 s2 : List Char)
    (h : NUL ∉ s1 ∨ NUL ∉ s2) :
    compare_jsonb_values (.jbvString s1) (.jbvString s2) = true ↔ s1 = s2 := by
  rcases h with h | h
  · rw [compare_jsonb_values_string]
    simp only [Bool.and_eq_true, beq_iff_eq]
    constructor
    · rintro ⟨hl, hc⟩
      exact (strncmp_eq_zero_iff s1 s2 hl h).mp hc
    · intro he
      exact ⟨by rw [he], (strncmp_eq_zero_iff s1 s2 (by rw [he]) h).mpr he⟩
  · rw [compare_jsonb_values_comm, compare_jsonb_values_string]
    simp only [Bool.and_eq_true, beq_iff_eq]
    constructor
    · rintro ⟨hl, hc⟩
      exact ((strncmp_eq_zero_iff s2 s1 hl h).mp hc).symm
    · intro he
      exact ⟨by rw [he], (strncmp_eq_zero_iff s2 s1 (by rw [he]) h).mpr he.symm⟩

/-! ## Claims on `compare_jsonb_values` -/

/-- C14 as stated fails: the two strings `a NUL b` and `a NUL c` have one length
and differ in their last position, and the source's `compare_jsonb_values`
returns true on them; `strncmp` stops at the NUL. -/
theorem C14_counterexample :
    ['a', NUL, 'b'].length = ['a', NUL, 'c'].length ∧
      ['a', NUL, 'b'].get? 2 ≠ ['a', NUL, 'c'].get? 2 ∧
      compare_jsonb_values (.jbvString ['a', NUL, 'b']) (.jbvString ['a', NUL, 'c']) =
        true := by
  refine ⟨rfl, by decide, by decide⟩

/-- C14, amended: on two strings of which at least one holds no zero byte, the
source's `compare_jsonb_values` returns true exactly when the two have the same
length and the same character at every position. -/
theorem C14_string_equality (s1 s2 : List Char) (h : NUL ∉ s1 ∨ NUL ∉ s2) :
    compare_jsonb_values (.jbvString s1) (.jbvString s2) = true ↔
      s1.length = s2.length ∧
        ∀ (i : Nat) (h1 : i < s1.length) (h2 : i < s2.length),
          s1.get ⟨i, h1⟩ = s2.get ⟨i, h2⟩ := by
  rw [compare_jsonb_values_string_iff s1 s2 h]
  constructor
  · intro he
    subst he
    exact ⟨rfl, fun _ _ _ => rfl⟩
  · rintro ⟨hl, hget⟩
    exact List.ext_get hl hget

/-- C14, amended, at the strings "speed" and "speed", and at "speed" and
"spark": the first pair compares equal, the second does not. -/
theorem C14_witness :
    compare_jsonb_values (.jbvString "speed".toList) (.jbvString "speed".toList) = true ∧
      ¬ compare_jsonb_values (.jbvString "speed".toList) (.jbvString "spark".toList) =
        true :=
  ⟨(C14_string_equality "speed".toList "speed".toList (Or.inl (by decide))).mpr
      ⟨rfl, fun _ _ _ => rfl⟩,
    fun h =>
      absurd (((C14_string_equality "speed".toList "spark".toList
        (Or.inl (by decide))).mp h).2 2 (by decide) (by decide)) (by decide)⟩

/-- C15 as stated fails: the strings `NUL x` and `NUL y` are two strings of
different bytes, and the source's `compare_jsonb_values` returns true on them;
`strncmp` stops at the NUL. -/
theorem C15_counterexample :
    ([NUL, 'x'] : List Char) ≠ [NUL, 'y'] ∧
      compare_jsonb_values (.jbvString [NUL, 'x']) (.jbvString [NUL, 'y']) = true := by
  refine ⟨by decide, by decide⟩

/-- C15, amended: on two values that are not two strings both holding a zero
byte, the source's `compare_jsonb_values` returns true exactly for two strings
of the same characters, two numerics of the same value, whatever their digits
and scale, or two booleans of the same value. On all values it is false for
two values of different kinds and for two nulls, two array headers or two
object headers. -/
theorem C15_scalar_equality_table (v1 v2 : JsonbValue)
    (hwf : ∀ s1 s2, v1 = .jbvString s1 → v2 = .jbvString s2 → NUL ∉ s1 ∨ NUL ∉ s2) :
    (compare_jsonb_values v1 v2 = true ↔
        (∃ s, v1 = .jbvString s ∧ v2 = .jbvString s) ∨
          (∃ n1 n2, v1 = .jbvNumeric n1 ∧ v2 = .jbvNumeric n2 ∧ n1.value = n2.value) ∨
          (∃ b, v1 = .jbvBool b ∧ v2 = .jbvBool b)) ∧
      (v1.type ≠ v2.type → compare_jsonb_values v1 v2 = false) ∧
      compare_jsonb_values .jbvNull .jbvNull = false ∧
      (∀ n1 r1 n2 r2, compare_jsonb_values (.jbvArray n1 r1) (.jbvArray n2 r2) = false) ∧
      (∀ n1 n2, compare_jsonb_values (.jbvObject n1) (.jbvObject n2) = false) := by
  refine ⟨?_, ?_, by decide, fun _ _ _ _ => by simp [compare_jsonb_values],
    fun _ _ => by simp [compare_jsonb_values]⟩
  · cases v1 <;> cases v2 <;>
      try (simp [compare_jsonb_values, JsonbValue.type]; done)
    · rename_i s1 s2
      rw [compare_jsonb_values_string_iff s1 s2 (hwf s1 s2 rfl rfl)]
      simp [eq_comm]
    · rename_i n1 n2
      simp only [compare_jsonb_values, JsonbValue.type, ne_eq, not_true_eq_false,
        ite_false, beq_iff_eq, numeric_cmp_eq_zero_iff]
      simp
    · rename_i b1 b2
      cases b1 <;> cases b2 <;> simp [compare_jsonb_values, JsonbValue.type]
  · intro h
    simp [compare_jsonb_values, h]

/-- C15, amended, at the numerics 1.0 and 1, which have different digits and
scale and the same value, and at the strings "1" and "1": both pairs compare
equal. -/
theorem C15_witness :
    compare_jsonb_values (.jbvNumeric ⟨10, 1⟩) (.jbvNumeric ⟨1, 0⟩) = true ∧
      compare_jsonb_values (.jbvString "1".toList) (.jbvString "1".toList) = true :=
  ⟨(C15_scalar_equality_table (.jbvNumeric ⟨10, 1⟩) (.jbvNumeric ⟨1, 0⟩)
      (fun _ _ h _ => by cases h)).1.mpr
      (Or.inr (Or.inl ⟨⟨10, 1⟩, ⟨1, 0⟩, rfl, rfl, by norm_num [Numeric.value]⟩)),
    (C15_scalar_equality_table (.jbvString "1".toList) (.jbvString "1".toList)
      (fun _ _ h _ => by cases h; exact Or.inl (by decide))).1.mpr
      (Or.inl ⟨"1".toList, rfl, rfl⟩)⟩

/-! ## Claims on the loop of the comparator -/

/-- C16 (the source departs from it): for all keys `k1`, `k2` and every number,
string or boolean `v`, the documents `{k1: v}` and `{k2: v}` match in the
specification's sense, where keys and container boundaries are compared by tag
only. The first pull of each iterator is `WJB_BEGIN_OBJECT`, the same
non-scalar tag, and the source's loop returns false at that very position, in
its first round, so `jsonb_contains_container` is false. -/
theorem C16_same_tag_headers_return_false (k1 k2 : List Char) :
    (∀ n : Numeric,
        Spec.structurallyMatches (.object [(k1, .numeric n)])
            (.object [(k2, .numeric n)]) = true ∧
          jsonb_contains_container (.object [(k1, .numeric n)])
            (.object [(k2, .numeric n)]) = false) ∧
      (∀ s : List Char,
        Spec.structurallyMatches (.object [(k1, .string s)])
            (.object [(k2, .string s)]) = true ∧
          jsonb_contains_container (.object [(k1, .string s)])
            (.object [(k2, .string s)]) = false) ∧
      (∀ b : Bool,
        Spec.structurallyMatches (.object [(k1, .bool b)])
            (.object [(k2, .bool b)]) = true ∧
          jsonb_contains_container (.object [(k1, .bool b)])
            (.object [(k2, .bool b)]) = false) ∧
      (∀ v : Jsonb,
        ((JsonbIteratorInit (.object [(k1, v)])).map Pull.tok).head? =
            some .WJB_BEGIN_OBJECT ∧
          ((JsonbIteratorInit (.object [(k2, v)])).map Pull.tok).head? =
            some .WJB_BEGIN_OBJECT ∧
          jsonb_contains_trace (JsonbIteratorInit (.object [(k1, v)]))
            (JsonbIteratorInit (.object [(k2, v)])) .jbvNull .jbvNull =
              ⟨false, 1, 1, 1⟩) := by
  refine ⟨fun n => ⟨?_, jsonb_contains_container_eq_false _ _⟩,
    fun s => ⟨?_, jsonb_contains_container_eq_false _ _⟩,
    fun b => ⟨?_, jsonb_contains_container_eq_false _ _⟩,
    fun v => ⟨?_, ?_, jsonb_contains_trace_eq _ _⟩⟩
  · simp [Spec.structurallyMatches, Spec.iterate, Spec.iteratePairs, Spec.stepMatches,
      Spec.Token.sameTag, Spec.scalarsEqual]
  · simp [Spec.structurallyMatches, Spec.iterate, Spec.iteratePairs, Spec.stepMatches,
      Spec.Token.sameTag, Spec.scalarsEqual]
  · simp [Spec.structurallyMatches, Spec.iterate, Spec.iteratePairs, Spec.stepMatches,
      Spec.Token.sameTag, Spec.scalarsEqual]
  · simp [JsonbIteratorInit, Jsonb.pulls]
  · simp [JsonbIteratorInit, Jsonb.pulls]

/-- C17: the token stream of every document begins with `WJB_BEGIN_ARRAY` or
`WJB_BEGIN_OBJECT`; `compare_jsonb_values` is false on every pair that starts
with an array or object header; so on every two documents the loop of
`jsonb_contains_container` returns false in its first round, after one pull
from each iterator, `tjsonb_overlaps` is false and `tjsonb_range` is
"No overlap in specified range". -/
theorem C17_always_false (a b : Jsonb) (x y : TJsonb Jsonb) :
    (∃ p rest, JsonbIteratorInit a = p :: rest ∧
        (p.tok = .WJB_BEGIN_ARRAY ∨ p.tok = .WJB_BEGIN_OBJECT)) ∧
      (∀ n r v2, compare_jsonb_values (.jbvArray n r) v2 = false) ∧
      (∀ n v2, compare_jsonb_values (.jbvObject n) v2 = false) ∧
      jsonb_contains_trace (JsonbIteratorInit a) (JsonbIteratorInit b) .jbvNull .jbvNull =
        ⟨false, 1, 1, 1⟩ ∧
      jsonb_contains_container a b = false ∧
      tjsonb_overlaps x y = false ∧
      tjsonb_range x y = "No overlap in specified range" := by
  refine ⟨?_, fun n r v2 => compare_jsonb_values_header _ v2 (Or.inl rfl),
    fun n v2 => compare_jsonb_values_header _ v2 (Or.inr rfl),
    jsonb_contains_trace_eq a b, jsonb_contains_container_eq_false a b, ?_, ?_⟩
  · cases a <;> simp [JsonbIteratorInit, Jsonb.pulls]
  · simp [tjsonb_overlaps, jsonb_contains_container_eq_false]
  · simp [tjsonb_range, jsonb_contains_container_eq_false]

/-- C18: `jsonb_contains_container`, `compare_jsonb_values` and
`tjsonb_overlaps` each give one answer for both orders of their arguments. -/
theorem C18_symmetry (a b : Jsonb) (v1 v2 : JsonbValue) (x y : TJsonb Jsonb) :
    jsonb_contains_container a b = jsonb_contains_container b a ∧
      compare_jsonb_values v1 v2 = compare_jsonb_values v2 v1 ∧
      tjsonb_overlaps x y = tjsonb_overlaps y x := by
  refine ⟨?_, compare_jsonb_values_comm v1 v2, ?_⟩
  · rw [jsonb_contains_container_eq_false, jsonb_contains_container_eq_false]
  · simp [tjsonb_overlaps, jsonb_contains_container_eq_false]

/-! ## Lemmas on the buffer of `tjsonb_in` and on the indexed loop -/

/-- The buffer that `tjsonb_in` leaves on a text with a `|`: the first `|` has
become a NUL, whatever the host parsers say. -/
theorem tjsonb_in_str {J : Type} (timestamptz_in : List Char → Except String TimestampTz)
    (jsonb_in : List Char → Except String J) (s : List Char)
    (hnul : NUL ∉ s) (hmem : '|' ∈ s) :
    (tjsonb_in timestamptz_in jsonb_in (cstring s)).str =
      beforeFirst '|' s ++ NUL :: (afterFirst '|' s ++ [NUL]) := by
  rw [tjsonb_in_delimiter timestamptz_in jsonb_in s hnul hmem]
  cases h1 : timestamptz_in (beforeFirst '|' s) with
  | error e => rfl
  | ok t =>
    cases h2 : jsonb_in (afterFirst '|' s) with
    | error e => rfl
    | ok j => rfl

theorem get?_append_cons (pre rest : List Char) (c : Char) :
    (pre ++ c :: rest).get? pre.length = some c := by
  induction pre with
  | nil => rfl
  | cons y ys ih => simpa using ih

/-- The indexed loop from index `i` on does what `aggregate_loop` does on the
elements from `i` on, ends with `i` at the number of elements, and runs its
body once for each of these elements. -/
theorem aggregate_for_eq {F : Type} (ops : Float8Ops F) (elements : List (TJsonb Jsonb))
    (k : Nat) :
    ∀ (i : Nat) (total_speed : F) (count : Int) (visits : Nat),
      elements.length - i = k → i ≤ elements.length →
      aggregate_for ops elements i total_speed count visits =
        ⟨(aggregate_loop ops (elements.drop i) total_speed count).1,
          (aggregate_loop ops (elements.drop i) total_speed count).2,
          elements.length, visits + k⟩ := by
  induction k with
  | zero =>
    intro i total_speed count visits hk hi
    have hlen : i = elements.length := by omega
    rw [aggregate_for]
    simp [hlen, aggregate_loop]
  | succ k ih =>
    intro i total_speed count visits hk hi
    have hlt : i < elements.length := by omega
    have hdrop : elements.drop i = elements.get ⟨i, hlt⟩ :: elements.drop (i + 1) := by
      rw [List.get_eq_getElem]
      exact List.drop_eq_getElem_cons hlt
    rw [aggregate_for, dif_pos hlt, hdrop]
    have hk1 : elements.length - (i + 1) = k := by omega
    generalize elements.get ⟨i, hlt⟩ = e
    cases hj : e.jsondata <;>
      simp only [JsonbExtractScalar, aggregate_loop, hj] <;>
      rw [ih (i + 1) _ _ _ hk1 hlt] <;>
      simp only [ForOutcome.mk.injEq, true_and] <;>
      omega

/-! ## Claims on the buffer of `tjsonb_in` and on termination -/

/-- C19 as stated fails: after `tjsonb_in` on the C string "+ii|x", which it
accepts, and on the C string "?|x", which the timestamp parser rejects, the
caller's buffer no longer holds the bytes it held before: line 64 has written
a NUL over the `|`. -/
theorem C19_counterexample :
    (tjsonb_in unaryIn unitIn (cstring "+ii|x".toList)).result = .ok ⟨2, ()⟩ ∧
      (tjsonb_in unaryIn unitIn (cstring "+ii|x".toList)).str =
        ['+', 'i', 'i', NUL, 'x', NUL] ∧
      (tjsonb_in unaryIn unitIn (cstring "+ii|x".toList)).str ≠ cstring "+ii|x".toList ∧
      (tjsonb_in unaryIn unitIn (cstring "?|x".toList)).result =
        .error (.TimestampParseError
          "invalid input syntax for type timestamp with time zone") ∧
      (tjsonb_in unaryIn unitIn (cstring "?|x".toList)).str ≠ cstring "?|x".toList := by
  refine ⟨rfl, by decide, by decide, rfl, by decide⟩

/-- C19, amended: on the C string of a text `s`, `tjsonb_in` leaves the
caller's buffer as it was when `s` holds no `|`; when `s` holds a `|`, the
buffer afterwards is the buffer before with a NUL written at the place of the
first `|` and every other place unchanged, whether the host parsers succeed or
fail. The length of the buffer is the same in both cases. -/
theorem C19_buffer_after_parse {J : Type}
    (timestamptz_in : List Char → Except String TimestampTz)
    (jsonb_in : List Char → Except String J) (s : List Char) (hnul : NUL ∉ s) :
    ('|' ∉ s → (tjsonb_in timestamptz_in jsonb_in (cstring s)).str = cstring s) ∧
      ('|' ∈ s →
        (tjsonb_in timestamptz_in jsonb_in (cstring s)).str =
            (cstring s).set (beforeFirst '|' s).length NUL ∧
          (cstring s).get? (beforeFirst '|' s).length = some '|') ∧
      (tjsonb_in timestamptz_in jsonb_in (cstring s)).str.length = (cstring s).length := by
  have hyes : '|' ∈ s →
      (tjsonb_in timestamptz_in jsonb_in (cstring s)).str =
          (cstring s).set (beforeFirst '|' s).length NUL ∧
        (cstring s).get? (beforeFirst '|' s).length = some '|' := by
    intro hmem
    have hsplit := beforeFirst_append_afterFirst '|' s hmem
    have hc : cstring s = beforeFirst '|' s ++ '|' :: (afterFirst '|' s ++ [NUL]) := by
      conv_lhs => rw [← hsplit]
      simp [cstring]
    rw [tjsonb_in_str timestamptz_in jsonb_in s hnul hmem, hc, set_append_cons]
    exact ⟨rfl, get?_append_cons _ _ _⟩
  refine ⟨?_, hyes, ?_⟩
  · intro hbar
    rw [tjsonb_in_no_delimiter timestamptz_in jsonb_in s hbar]
  · by_cases hmem : '|' ∈ s
    · rw [(hyes hmem).1, List.length_set]
    · rw [tjsonb_in_no_delimiter timestamptz_in jsonb_in s hmem]

/-- C19, amended, at the text "+ii|x": the buffer afterwards is the buffer
before with a NUL at offset 3. -/
theorem C19_witness :
    (tjsonb_in unaryIn unitIn (cstring "+ii|x".toList)).str =
      (cstring "+ii|x".toList).set 3 NUL :=
  ((C19_buffer_after_parse unaryIn unitIn "+ii|x".toList (by decide)).2.1
    (by decide)).1

/-- C20: the loop of `jsonb_contains_container` is a total function of two
finite iterators: its body runs at most as often as the shorter iterator has
tokens, and each iterator serves at most one pull more than the body runs; so
it is on the iterators of any two documents. The `for` loop of
`tjsonb_aggregate_speed` ends with its index at the number of elements after
one run of its body for each element, with the sum and count that the
aggregate uses. -/
theorem C20_termination {F : Type} (ops : Float8Ops F) (it1 it2 : JsonbIterator)
    (v1 v2 : JsonbValue) (a b : Jsonb) (docs : List (TJsonb Jsonb)) :
    ((jsonb_contains_trace it1 it2 v1 v2).result = jsonb_contains_loop it1 it2 v1 v2 ∧
        (jsonb_contains_trace it1 it2 v1 v2).iterations ≤ min it1.length it2.length ∧
        (jsonb_contains_trace it1 it2 v1 v2).pulls1 ≤
          (jsonb_contains_trace it1 it2 v1 v2).iterations + 1 ∧
        (jsonb_contains_trace it1 it2 v1 v2).pulls2 ≤
          (jsonb_contains_trace it1 it2 v1 v2).iterations + 1) ∧
      ((jsonb_contains_trace (JsonbIteratorInit a) (JsonbIteratorInit b)
            .jbvNull .jbvNull).result = jsonb_contains_container a b ∧
        (jsonb_contains_trace (JsonbIteratorInit a) (JsonbIteratorInit b)
            .jbvNull .jbvNull).iterations ≤
          min (JsonbIteratorInit a).length (JsonbIteratorInit b).length) ∧
      aggregate_for ops docs 0 ops.zero 0 0 =
        ⟨(aggregate_loop ops docs ops.zero 0).1, (aggregate_loop ops docs ops.zero 0).2,
          docs.length, docs.length⟩ := by
  refine ⟨⟨jsonb_contains_trace_result it1 it2 v1 v2,
      jsonb_contains_trace_bounds it1 it2 v1 v2⟩,
    ⟨jsonb_contains_trace_result _ _ _ _, (jsonb_contains_trace_bounds _ _ _ _).1⟩, ?_⟩
  have h := aggregate_for_eq ops docs docs.length 0 ops.zero 0 0 (by simp) (by simp)
  simpa using h

end TJsonbSpec
